import Mathlib

/-!
Verification of the ICFP-2024 contest-language evaluator
(`src/core/src/parser/{tokenizer,icfpstring,ast}.rs`).

The Rust source is embedded shallowly:
* machine integers (`i64`, `BigInt`) become `Int` — `i64` arithmetic wraps
  through `w64`, `BigInt` arithmetic is exact;
* the node arena (`Vec<Node>` indexed by `usize` handles) becomes a binary
  trie keyed by the handle, so that fuelled evaluation stays cheap to
  normalise in the kernel;
* every function that recurses over the node graph takes an explicit fuel
  argument (the Rust recursion terminates because the visited sets and the
  arena are finite; fuel plays the same role here and is always chosen
  large enough for the runs considered);
* a Rust panic (out-of-bounds index) is modelled by `Option`, `none`
  standing for the panic.
-/

namespace Icfp2024

/-- `ParseError` from `src/core/src/parser/mod.rs`. -/
inductive ParseError where
  | InvalidCharacter (c : Int)
  | InvalidToken
  | CannotFindNextToken
  | CannotConsumeToken
  | InvalidUnaryNegateOperand
  | InvalidUnaryNotOperand
  | InvalidUnaryStrToIntOperand
  | InvalidUnaryIntToStrOperand
  | InvalidBinaryAddOperand
  | InvalidBinarySubOperand
  | InvalidBinaryMulOperand
  | InvalidBinaryDivOperand
  | InvalidBinaryModOperand
  | InvalidBinaryEqOperand
  | InvalidBinaryNeOperand
  | InvalidBinaryGtOperand
  | InvalidBinaryLtOperand
  | InvalidBinaryAndOperand
  | InvalidBinaryOrOperand
  | InvalidBinaryConcatOperand
  | InvalidBinaryTakeOperand
  | InvalidBinaryDropOperand
  | InvalidBinaryApplyOperand
  | InvalidBinaryIfOperand
  | InvalidBinaryLambdaOperand
  deriving DecidableEq, Repr

/-- Two's-complement wrap-around of `i64` arithmetic (the release-mode
behaviour of an overflowing Rust `i64` operation). -/
def w64 (x : Int) : Int :=
  (x + 9223372036854775808) % 18446744073709551616 - 9223372036854775808

/-- `ICFPString` (`icfpstring.rs`): a string of the 94-character contest
alphabet, kept as the list of alphabet indices (the `Vec<u8>` field `s`;
each entry is `< 94`). -/
structure ICFPString where
  s : List Nat
  deriving DecidableEq, Repr

/-- Body of `ICFPString::from_str`: each wire character `ch` is mapped to
`ch - '!'`, rejecting indices outside `0..94` (`CHAR_MAP.len() = 94`). -/
def fromStrGo : List Char → Except ParseError (List Nat)
  | [] => .ok []
  | ch :: rest =>
    let index : Int := (ch.toNat : Int) - 33
    if index < 0 ∨ 94 ≤ index then
      .error (.InvalidCharacter (ch.toNat : Int))
    else
      (fromStrGo rest).map fun tl => index.toNat :: tl

/-- `ICFPString::from_str`. -/
def ICFPString.from_str (input : List Char) : Except ParseError ICFPString :=
  (fromStrGo input).map ICFPString.mk

/-- Loop body of `ICFPString::from_i64`: `while input > 0 { s.push(input % 94); input /= 94 }`,
producing the digits least-significant first.  The fuel is only consumed on
loop entry; `input.toNat` iterations always suffice. -/
def fromI64Go : Nat → Int → List Nat
  | 0, _ => []
  | f + 1, input => if 0 < input then (input % 94).toNat :: fromI64Go f (input / 94) else []

/-- `ICFPString::from_i64`: base-94 digits of a non-negative `i64`,
most-significant first (the pushed digits are reversed). -/
def ICFPString.from_i64 (input : Int) : ICFPString :=
  ⟨(fromI64Go input.toNat input).reverse⟩

/-- `ICFPString::to_i64`: `ret = ret * 94 + digit` over the digits,
most-significant first, in `i64` arithmetic (each operation wraps). -/
def ICFPString.to_i64 (str : ICFPString) : Int :=
  str.s.foldl (fun (ret : Int) (d : Nat) => w64 (w64 (ret * 94) + (d : Int))) 0

/-- Modelled from the spec: the arbitrary-precision `ICFPString::to_int`
used by the evaluator's StrToInt branch is not among the provided sources;
§4.6 defines StrToInt as "treat the alphabet indices as base-94 digits MSB
first" (`BigInt` arithmetic, no wrap-around). -/
def ICFPString.to_int (str : ICFPString) : Int :=
  str.s.foldl (fun (ret : Int) (d : Nat) => ret * 94 + (d : Int)) 0

/-- Modelled from the spec: the arbitrary-precision `ICFPString::from_int`
used by the evaluator's IntToStr branch is not among the provided sources;
§4.6 defines IntToStr as the inverse of StrToInt on non-negative integers
(same digit loop as `from_i64`, over `BigInt`). -/
def ICFPString.from_int (input : Int) : ICFPString :=
  ⟨(fromI64Go input.toNat input).reverse⟩

/-- `ICFPString::concat`. -/
def ICFPString.concat (a b : ICFPString) : ICFPString := ⟨a.s ++ b.s⟩

/-- `ICFPString::take` (`self.s.iter().take(n)`): at most the first `n`
alphabet characters — a shorter string is returned whole. -/
def ICFPString.take (a : ICFPString) (n : Nat) : ICFPString := ⟨a.s.take n⟩

/-- `ICFPString::drop` (`self.s.iter().skip(n)`). -/
def ICFPString.drop (a : ICFPString) (n : Nat) : ICFPString := ⟨a.s.drop n⟩

/-- `UnaryOpecode` (`tokenizer.rs`). -/
inductive UnaryOpecode where
  | Negate | Not | StrToInt | IntToStr
  deriving DecidableEq, Repr

/-- `BinaryOpecode` (`tokenizer.rs`). -/
inductive BinaryOpecode where
  | Add | Sub | Mul | Div | Modulo
  | IntegerLarger | IntegerSmaller | Equal
  | Or | And | StrConcat | TakeStr | DropStr | Apply
  deriving DecidableEq, Repr

/-- `TokenType` (`tokenizer.rs`).  Integer payloads are the `i64` values
produced by `to_i64`; the lambda / variable identifiers are the `u32`
values the parser stores (narrowed with `toNat`). -/
inductive TokenType where
  | Boolean (b : Bool)
  | Integer (i : Int)
  | String (s : ICFPString)
  | Unary (op : UnaryOpecode)
  | Binary (op : BinaryOpecode)
  | If
  | Lambda (i : Nat)
  | Variable (i : Nat)
  deriving DecidableEq, Repr

/-- Rust `char::is_ascii_whitespace`: space, `\t`, `\n`, `\x0C`, `\r`. -/
def isAsciiWs (c : Char) : Bool :=
  c.toNat = 32 ∨ c.toNat = 9 ∨ c.toNat = 10 ∨ c.toNat = 12 ∨ c.toNat = 13

/-- `input.split_ascii_whitespace()`: split on whitespace runs, dropping
empty lexemes.  The accumulator holds the current lexeme reversed. -/
def splitWsGo : List Char → List Char → List (List Char)
  | [], acc => if acc.isEmpty then [] else [acc.reverse]
  | c :: rest, acc =>
    if isAsciiWs c then
      if acc.isEmpty then splitWsGo rest [] else acc.reverse :: splitWsGo rest []
    else
      splitWsGo rest (c :: acc)

def splitWs (cs : List Char) : List (List Char) := splitWsGo cs []

/-- Classification of one whitespace-free lexeme by `tokenize`
(`tokenizer.rs` lines 46–94).  `none` models the Rust panic raised by the
unchecked index `chars[1]` (and, vacuously, `chars[0]`, which is always in
bounds for the non-empty lexemes the splitter yields). -/
def tokenizeToken : List Char → Option (Except ParseError TokenType)
  | [] => none
  | c :: body =>
    if c = 'T' then some (.ok (.Boolean true))
    else if c = 'F' then some (.ok (.Boolean false))
    else if c = 'I' then
      some ((ICFPString.from_str body).map fun str => .Integer str.to_i64)
    else if c = 'S' then
      some ((ICFPString.from_str body).map fun str => .String str)
    else if c = 'U' then
      match body with
      | [] => none
      | op :: _ =>
        if op = '-' then some (.ok (.Unary .Negate))
        else if op = '!' then some (.ok (.Unary .Not))
        else if op = '#' then some (.ok (.Unary .StrToInt))
        else if op = '$' then some (.ok (.Unary .IntToStr))
        else some (.error .InvalidToken)
    else if c = 'B' then
      match body with
      | [] => none
      | op :: _ =>
        if op = '+' then some (.ok (.Binary .Add))
        else if op = '-' then some (.ok (.Binary .Sub))
        else if op = '*' then some (.ok (.Binary .Mul))
        else if op = '/' then some (.ok (.Binary .Div))
        else if op = '%' then some (.ok (.Binary .Modulo))
        else if op = '<' then some (.ok (.Binary .IntegerLarger))
        else if op = '>' then some (.ok (.Binary .IntegerSmaller))
        else if op = '=' then some (.ok (.Binary .Equal))
        else if op = '|' then some (.ok (.Binary .Or))
        else if op = '&' then some (.ok (.Binary .And))
        else if op = '.' then some (.ok (.Binary .StrConcat))
        else if op = 'T' then some (.ok (.Binary .TakeStr))
        else if op = 'D' then some (.ok (.Binary .DropStr))
        else if op = '$' then some (.ok (.Binary .Apply))
        else some (.error .InvalidToken)
    else if c = '?' then some (.ok .If)
    else if c = 'L' then
      some ((ICFPString.from_str body).map fun str => .Lambda str.to_i64.toNat)
    else if c = 'v' then
      some ((ICFPString.from_str body).map fun str => .Variable str.to_i64.toNat)
    else some (.error .InvalidToken)

/-- Sequencing of `tokenize`'s loop: the first panic or error encountered
(in lexeme order) wins, exactly as in the Rust `for` loop. -/
def tokenizeGo : List (List Char) → Option (Except ParseError (List TokenType))
  | [] => some (.ok [])
  | tk :: rest =>
    match tokenizeToken tk with
    | none => none
    | some (.error e) => some (.error e)
    | some (.ok t) =>
      match tokenizeGo rest with
      | none => none
      | some (.error e) => some (.error e)
      | some (.ok ts) => some (.ok (t :: ts))

/-- `tokenize` (`tokenizer.rs`): split on ASCII whitespace and classify
every lexeme.  `none` is a panic, `some (.error e)` an `Err(e)`. -/
def tokenize (input : List Char) : Option (Except ParseError (List TokenType)) :=
  tokenizeGo (splitWs input)

/-- `NodeType` (`ast.rs`).  Node handles (`usize` arena indices) are `Nat`;
variable identifiers (`u32`) are `Nat`; `BigInt` is `Int`. -/
inductive NodeType where
  | Boolean (b : Bool)
  | Integer (i : Int)
  | String (s : ICFPString)
  | Unary (op : UnaryOpecode) (child : Nat)
  | Binary (op : BinaryOpecode) (child1 child2 : Nat)
  | If (pred first second : Nat)
  | Lambda (var_id : Nat) (child : Nat)
  | Variable (var_id : Nat)
  | Lazy (target : Nat)
  deriving DecidableEq, Repr

/-- `Node` (`ast.rs`). -/
structure Node where
  node_id : Nat
  node_type : NodeType
  deriving DecidableEq, Repr

/-- The arena `Vec<Node>`, as a binary trie keyed by the handle so that
the kernel can look nodes up in logarithmic time.  Key `0` lives at the
root; key `n+1` descends into the `even`/`odd` child by the parity of `n`
with remaining key `n / 2`. -/
inductive NodeMap where
  | leaf
  | branch (val : Option Node) (even odd : NodeMap)
  deriving DecidableEq, Repr

def NodeMap.get : NodeMap → Nat → Option Node
  | .leaf, _ => none
  | .branch v _ _, 0 => v
  | .branch _ e o, n + 1 => if n % 2 = 0 then e.get (n / 2) else o.get (n / 2)

/-- `NodeMap.set` with explicit fuel (the key halves at every step, so
`n + 1` units always suffice; see `NodeMap.setG_get_self`). -/
def NodeMap.setG : Nat → NodeMap → Nat → Node → NodeMap
  | 0, m, _, _ => m
  | _ + 1, .leaf, 0, x => .branch (some x) .leaf .leaf
  | f + 1, .leaf, n + 1, x =>
    if n % 2 = 0 then .branch none (NodeMap.setG f .leaf (n / 2) x) .leaf
    else .branch none .leaf (NodeMap.setG f .leaf (n / 2) x)
  | _ + 1, .branch _ e o, 0, x => .branch (some x) e o
  | f + 1, .branch v e o, n + 1, x =>
    if n % 2 = 0 then .branch v (NodeMap.setG f e (n / 2) x) o
    else .branch v e (NodeMap.setG f o (n / 2) x)

def NodeMap.set (m : NodeMap) (n : Nat) (x : Node) : NodeMap :=
  NodeMap.setG (n + 1) m n x

/-- `NodeFactory` (`ast.rs`): owns the arena, the monotone node-handle
counter and the fresh-variable counter (which starts at 128, above any
source identifier). -/
structure NodeFactory where
  node_id : Nat
  var_id : Nat
  node_buffer : NodeMap
  root_id : Nat
  deriving Repr

/-- `ParserState` (`ast.rs`). -/
structure ParserState where
  node_factory : NodeFactory
  deriving Repr

/-- `ParserState::new` / `NodeFactory::new`. -/
def ParserState.new : ParserState :=
  ⟨{ node_id := 0, var_id := 128, node_buffer := .leaf, root_id := 0 }⟩

/-- Arena indexing `parser_state.node_factory[i]`.  An absent entry
(an out-of-bounds `Vec` index, which would panic in Rust) is given an
arbitrary default; all executions considered here stay in bounds. -/
def getNode (st : ParserState) (i : Nat) : Node :=
  (st.node_factory.node_buffer.get i).getD ⟨0, .Boolean true⟩

/-- The node type stored at handle `i`. -/
def getNT (st : ParserState) (i : Nat) : NodeType :=
  (getNode st i).node_type

/-- In-place node-type overwrite `parser_state.node_factory[i].node_type = t`. -/
def setNT (st : ParserState) (i : Nat) (t : NodeType) : ParserState :=
  ⟨{ st.node_factory with node_buffer := st.node_factory.node_buffer.set i ⟨(getNode st i).node_id, t⟩ }⟩

/-- The shared body of the `NodeFactory` node constructors
(`boolean_node`, `integer_node`, …): draw `get_node_id()`, push the new
node, return its index.  One `get_node_id` is paired with every push, so
the counter always equals the buffer length and the returned
`node_buffer.len() - 1` is exactly the drawn id. -/
def ParserState.addNode (st : ParserState) (t : NodeType) : ParserState × Nat :=
  let nid := st.node_factory.node_id
  (⟨{ st.node_factory with
      node_id := nid + 1,
      node_buffer := st.node_factory.node_buffer.set nid ⟨nid, t⟩ }⟩, nid)

/-- `NodeFactory::get_var_id`. -/
def ParserState.get_var_id (st : ParserState) : ParserState × Nat :=
  (⟨{ st.node_factory with var_id := st.node_factory.var_id + 1 }⟩, st.node_factory.var_id)

/-- `replace_var_id` (`ast.rs` lines 184–221): rewrite every occurrence of
`Variable fro` reachable from `node_id` to `Variable to`, not descending
into lambdas that re-bind `fro`, and passing through each `Lazy` target at
most once (the `visited` set, here a list). -/
def replace_var_id : Nat → Nat → Nat → Nat → ParserState → List Nat → ParserState × List Nat
  | 0, _, _, _, st, visited => (st, visited)
  | f + 1, node_id, fro, tov, st, visited =>
    match getNT st node_id with
    | .Boolean _ | .Integer _ | .String _ => (st, visited)
    | .Unary _ child => replace_var_id f child fro tov st visited
    | .Binary _ child1 child2 =>
      let (st, visited) := replace_var_id f child1 fro tov st visited
      replace_var_id f child2 fro tov st visited
    | .If pred first second =>
      let (st, visited) := replace_var_id f pred fro tov st visited
      let (st, visited) := replace_var_id f first fro tov st visited
      replace_var_id f second fro tov st visited
    | .Lambda var_id child =>
      if var_id ≠ fro then replace_var_id f child fro tov st visited else (st, visited)
    | .Variable var_id =>
      if var_id = fro then (setNT st node_id (.Variable tov), visited) else (st, visited)
    | .Lazy lazy_node_id =>
      if visited.contains lazy_node_id then (st, visited)
      else replace_var_id f lazy_node_id fro tov st (lazy_node_id :: visited)

/-- `alpha_convert` (`ast.rs` lines 150–182): give every lambda a fresh
binder, rewriting the occurrences it binds. -/
def alpha_convert : Nat → Nat → ParserState → List Nat → ParserState × List Nat
  | 0, _, st, visited => (st, visited)
  | f + 1, node_id, st, visited =>
    match getNT st node_id with
    | .Boolean _ | .Integer _ | .String _ | .Variable _ => (st, visited)
    | .Unary _ child => alpha_convert f child st visited
    | .Binary _ child1 child2 =>
      let (st, visited) := alpha_convert f child1 st visited
      alpha_convert f child2 st visited
    | .If pred first second =>
      let (st, visited) := alpha_convert f pred st visited
      let (st, visited) := alpha_convert f first st visited
      alpha_convert f second st visited
    | .Lambda var_id child =>
      let (st, new_var_id) := st.get_var_id
      let (st, _local_visited) := replace_var_id f child var_id new_var_id st []
      let st := setNT st node_id (.Lambda new_var_id child)
      alpha_convert f child st visited
    | .Lazy lazy_node_id =>
      if visited.contains lazy_node_id then (st, visited)
      else alpha_convert f lazy_node_id st (lazy_node_id :: visited)

/-- `substitute`'s inner worker (`ast.rs` lines 381–421): replace every
occurrence of `Variable var_id` reachable from `node_id` by
`Lazy lazy_node_id`, with the same shadowing and `Lazy`-visited rules as
`replace_var_id`. -/
def substitute_inner : Nat → Nat → Nat → Nat → ParserState → List Nat → ParserState × List Nat
  | 0, _, _, _, st, visited => (st, visited)
  | f + 1, node_id, var_id, lazy_node_id, st, visited =>
    match getNT st node_id with
    | .Boolean _ | .Integer _ | .String _ => (st, visited)
    | .Unary _ child => substitute_inner f child var_id lazy_node_id st visited
    | .Binary _ child1 child2 =>
      let (st, visited) := substitute_inner f child1 var_id lazy_node_id st visited
      substitute_inner f child2 var_id lazy_node_id st visited
    | .If pred first second =>
      let (st, visited) := substitute_inner f pred var_id lazy_node_id st visited
      let (st, visited) := substitute_inner f first var_id lazy_node_id st visited
      substitute_inner f second var_id lazy_node_id st visited
    | .Lambda child_var_id child =>
      if var_id ≠ child_var_id then substitute_inner f child var_id lazy_node_id st visited
      else (st, visited)
    | .Variable child_var_id =>
      if var_id = child_var_id then (setNT st node_id (.Lazy lazy_node_id), visited)
      else (st, visited)
    | .Lazy inner_node_id =>
      if visited.contains inner_node_id then (st, visited)
      else substitute_inner f inner_node_id var_id lazy_node_id st (inner_node_id :: visited)

/-- `substitute` (`ast.rs` lines 374–425). -/
def substitute (f : Nat) (root_node_id var_id node_id : Nat) (st : ParserState) : ParserState :=
  (substitute_inner f root_node_id var_id node_id st []).1

/-- `extract_node` (`ast.rs` lines 427–436): chase a chain of `Lazy`
nodes to the first non-`Lazy` handle, path-compressing each link.  Fuel is
consumed only when following a link. -/
def extract_node (f : Nat) (st : ParserState) (node_id : Nat) : ParserState × Nat :=
  match getNT st node_id with
  | .Lazy lazy_node_id =>
    match f with
    | 0 => (st, node_id)
    | f + 1 =>
      let (st, inner) := extract_node f st lazy_node_id
      (setNT st node_id (.Lazy inner), inner)
  | _ => (st, node_id)

/-- `ParserState::shallow_clone` (`ast.rs` lines 825–862): structural copy
producing new nodes; `Lazy` nodes are returned unchanged (sharing).  In
the `Lambda` arm the source draws a fresh identifier and then calls
`replace_var_id` on the ORIGINAL `node_id` — faithfully reproduced here. -/
def shallow_clone : Nat → ParserState → Nat → ParserState × Nat
  | 0, st, node_id => (st, node_id)
  | f + 1, st, node_id =>
    match getNT st node_id with
    | .Boolean b => st.addNode (.Boolean b)
    | .Integer i => st.addNode (.Integer i)
    | .String s => st.addNode (.String s)
    | .Unary o c =>
      let (st, child_id) := shallow_clone f st c
      st.addNode (.Unary o child_id)
    | .Binary o c1 c2 =>
      let (st, child_node_id1) := shallow_clone f st c1
      let (st, child_node_id2) := shallow_clone f st c2
      st.addNode (.Binary o child_node_id1 child_node_id2)
    | .If p fi se =>
      let (st, new_pred) := shallow_clone f st p
      let (st, new_first) := shallow_clone f st fi
      let (st, new_second) := shallow_clone f st se
      st.addNode (.If new_pred new_first new_second)
    | .Lambda v c =>
      let (st, new_v) := st.get_var_id
      let (st, new_child) := shallow_clone f st c
      let (st, new_node_id) := st.addNode (.Lambda v new_child)
      let (st, _visited) := replace_var_id f node_id v new_v st []
      (st, new_node_id)
    | .Variable v => st.addNode (.Variable v)
    | .Lazy _ => (st, node_id)

/-- `evaluate_once` (`ast.rs` lines 438–811): one search for the leftmost
redex, rewriting it in place.  Threads the `updated` flag and the
`eval_node_visited` set; the `debug` printing of the source is elided.
All recursive calls (including those of the helpers above) run on fuel
`f`. -/
def evaluate_once : Nat → ParserState → Nat → Bool → List Nat → ParserState × Bool × List Nat
  | 0, st, _, upd, vis => (st, upd, vis)
  | f + 1, st, node_id, upd, vis =>
    if vis.contains node_id then (st, upd, vis)
    else
      let vis := node_id :: vis
      match getNT st node_id with
      | .Boolean _ | .Integer _ | .String _ | .Variable _ => (st, upd, vis)
      | .Unary opcode child_id =>
        let (st, child_id) := extract_node f st child_id
        let child_type := getNT st child_id
        let (st, upd) :=
          match opcode, child_type with
          | .Negate, .Integer i => (setNT st node_id (.Integer (-1 * i)), true)
          | .Not, .Boolean b => (setNT st node_id (.Boolean (!b)), true)
          | .StrToInt, .String s => (setNT st node_id (.Integer s.to_int), true)
          | .IntToStr, .Integer i => (setNT st node_id (.String (ICFPString.from_int i)), true)
          | _, _ => (st, upd)
        if !upd then evaluate_once f st child_id upd vis else (st, upd, vis)
      | .Binary opcode child1 child2 =>
        let (st, child1) := extract_node f st child1
        let child_type1 := getNT st child1
        let (st, child2) := extract_node f st child2
        let child_type2 := getNT st child2
        let (st, upd) :=
          match opcode with
          | .Add =>
            match child_type1, child_type2 with
            | .Integer i1, .Integer i2 => (setNT st node_id (.Integer (i1 + i2)), true)
            | _, _ => (st, upd)
          | .Sub =>
            match child_type1, child_type2 with
            | .Integer i1, .Integer i2 => (setNT st node_id (.Integer (i1 - i2)), true)
            | _, _ => (st, upd)
          | .Mul =>
            match child_type1, child_type2 with
            | .Integer i1, .Integer i2 => (setNT st node_id (.Integer (i1 * i2)), true)
            | .Integer i1, _ =>
              if i1 = 0 then (setNT st node_id (.Integer 0), true) else (st, upd)
            | _, .Integer i2 =>
              if i2 = 0 then (setNT st node_id (.Integer 0), true) else (st, upd)
            | _, _ => (st, upd)
          | .Div =>
            match child_type1, child_type2 with
            | .Integer i1, .Integer i2 => (setNT st node_id (.Integer (Int.tdiv i1 i2)), true)
            | _, _ => (st, upd)
          | .Modulo =>
            match child_type1, child_type2 with
            | .Integer i1, .Integer i2 => (setNT st node_id (.Integer (Int.tmod i1 i2)), true)
            | _, _ => (st, upd)
          | .IntegerLarger =>
            match child_type1, child_type2 with
            | .Integer i1, .Integer i2 => (setNT st node_id (.Boolean (decide (i1 < i2))), true)
            | _, _ => (st, upd)
          | .IntegerSmaller =>
            match child_type1, child_type2 with
            | .Integer i1, .Integer i2 => (setNT st node_id (.Boolean (decide (i2 < i1))), true)
            | _, _ => (st, upd)
          | .Equal =>
            match child_type1, child_type2 with
            | .Integer i1, .Integer i2 => (setNT st node_id (.Boolean (decide (i1 = i2))), true)
            | .String s1, .String s2 => (setNT st node_id (.Boolean (decide (s1 = s2))), true)
            | .Boolean b1, .Boolean b2 => (setNT st node_id (.Boolean (b1 == b2)), true)
            | _, _ => (st, upd)
          | .Or =>
            match child_type1, child_type2 with
            | .Boolean b1, .Boolean b2 => (setNT st node_id (.Boolean (b1 || b2)), true)
            | _, _ => (st, upd)
          | .And =>
            match child_type1, child_type2 with
            | .Boolean b1, .Boolean b2 => (setNT st node_id (.Boolean (b1 && b2)), true)
            | _, _ => (st, upd)
          | .StrConcat =>
            match child_type1, child_type2 with
            | .String s1, .String s2 => (setNT st node_id (.String (s1.concat s2)), true)
            | _, _ => (st, upd)
          | .TakeStr =>
            -- the source narrows the BigInt count with try_into().unwrap(),
            -- which panics for a negative (or oversized) count; `Int.toNat`
            -- stands in for it and the runs considered keep the count
            -- non-negative
            match child_type1, child_type2 with
            | .Integer i, .String s => (setNT st node_id (.String (s.take i.toNat)), true)
            | _, _ => (st, upd)
          | .DropStr =>
            match child_type1, child_type2 with
            | .Integer i, .String s => (setNT st node_id (.String (s.drop i.toNat)), true)
            | _, _ => (st, upd)
          | .Apply =>
            match child_type1 with
            | .Lambda var_id child1_inner =>
              let (st, cloned_child1_node_id) := shallow_clone f st child1_inner
              let (st, new_var_id) := st.get_var_id
              let (st, _local_visited) :=
                replace_var_id f cloned_child1_node_id var_id new_var_id st []
              let st := substitute f cloned_child1_node_id new_var_id child2 st
              (setNT st node_id (getNT st cloned_child1_node_id), true)
            | _ => (st, upd)
        if !upd then
          let (st, upd, vis) := evaluate_once f st child1 upd vis
          if !upd then evaluate_once f st child2 upd vis else (st, upd, vis)
        else (st, upd, vis)
      | .If pred first second =>
        let (st, pred) := extract_node f st pred
        let (st, first) := extract_node f st first
        let (st, second) := extract_node f st second
        match getNT st pred with
        | .Boolean b =>
          if b then (setNT st node_id (getNT st first), true, vis)
          else (setNT st node_id (getNT st second), true, vis)
        | _ =>
          if !upd then
            let (st, upd, vis) := evaluate_once f st pred upd vis
            if !upd then
              let (st, upd, vis) := evaluate_once f st first upd vis
              if !upd then evaluate_once f st second upd vis else (st, upd, vis)
            else (st, upd, vis)
          else (st, upd, vis)
      | .Lambda _var_id child =>
        let (st, child) := extract_node f st child
        if !upd then evaluate_once f st child upd vis else (st, upd, vis)
      | .Lazy lazy_node =>
        let (st, lazy_node) := extract_node f st lazy_node
        match getNT st lazy_node with
        | .Boolean _ | .Integer _ | .String _ | .Variable _ =>
          (setNT st node_id (getNT st lazy_node), true, vis)
        | _ =>
          if !upd then evaluate_once f st lazy_node upd vis else (st, upd, vis)

/-- `construct_node` (`ast.rs` lines 223–261): prefix recursive descent
over the token queue.  The fuel only bounds the recursion depth, which
never exceeds the number of tokens plus one; running out of tokens is
`CannotFindNextToken`. -/
def construct_node : Nat → ParserState → List TokenType → Except ParseError (Nat × ParserState × List TokenType)
  | 0, _, _ => .error .CannotFindNextToken
  | f + 1, st, tokens =>
    match tokens with
    | [] => .error .CannotFindNextToken
    | token :: rest =>
      match token with
      | .Boolean b =>
        let (st, n) := st.addNode (.Boolean b)
        .ok (n, st, rest)
      | .Integer i =>
        let (st, n) := st.addNode (.Integer i)
        .ok (n, st, rest)
      | .String s =>
        let (st, n) := st.addNode (.String s)
        .ok (n, st, rest)
      | .Unary opcode => do
        let (operand, st, rest) ← construct_node f st rest
        let (st, n) := st.addNode (.Unary opcode operand)
        .ok (n, st, rest)
      | .Binary opcode => do
        let (operand1, st, rest) ← construct_node f st rest
        let (operand2, st, rest) ← construct_node f st rest
        let (st, n) := st.addNode (.Binary opcode operand1 operand2)
        .ok (n, st, rest)
      | .If => do
        let (operand1, st, rest) ← construct_node f st rest
        let (operand2, st, rest) ← construct_node f st rest
        let (operand3, st, rest) ← construct_node f st rest
        let (st, n) := st.addNode (.If operand1 operand2 operand3)
        .ok (n, st, rest)
      | .Lambda i => do
        let (operand, st, rest) ← construct_node f st rest
        let (st, n) := st.addNode (.Lambda i operand)
        .ok (n, st, rest)
      | .Variable i =>
        let (st, n) := st.addNode (.Variable i)
        .ok (n, st, rest)

/-- Fuel handed to `evaluate_once` (and through it to the graph helpers)
for each of the 200 driver iterations.  The Rust source recurses natively;
any bound larger than every recursion depth reached is equivalent. -/
def evalFuel : Nat := 1000000

/-- The driver loop of `parse` (`ast.rs` lines 340–368): up to 200 rounds
of `evaluate_once` from the root, stopping early when a round makes no
update.  The returned flag is `true` when the loop converged (broke on
`!updated`) and `false` when the 200-iteration cap was exhausted with the
last round still updating. -/
def eval_loop : Nat → ParserState → ParserState × Bool
  | 0, st => (st, false)
  | f + 1, st =>
    let (st, updated, _visited) :=
      evaluate_once evalFuel st st.node_factory.root_id false []
    if updated then eval_loop f st else (st, true)

/-- The part of `parse` (`ast.rs` lines 320–371) that follows
tokenization: build the tree, alpha-convert, run the driver loop, and
return the node the root handle finally holds, together with the
convergence flag of the loop.  Note that the source neither rejects
trailing tokens nor reports cap exhaustion: the result is `Ok` in both
cases. -/
def run_tokens (token_list : List TokenType) : Except ParseError (ParserState × Bool) := do
  let st := ParserState.new
  let (root_node_id, st, _rest) ← construct_node (token_list.length + 1) st token_list
  let st : ParserState := ⟨{ st.node_factory with root_id := root_node_id }⟩
  let (st, _visited) := alpha_convert evalFuel root_node_id st []
  .ok (eval_loop 200 st)

/-- `parse` (`ast.rs`) from the token list onward: the final root node. -/
def parse_tokens (token_list : List TokenType) : Except ParseError Node :=
  (run_tokens token_list).map fun (st, _converged) => getNode st st.node_factory.root_id

/-- `parse` (`ast.rs` lines 320–371) on a whole input string; `none` is a
tokenizer panic. -/
def parse (input : List Char) : Option (Except ParseError Node) :=
  match tokenize input with
  | none => none
  | some (.error e) => some (.error e)
  | some (.ok token_list) => some (parse_tokens token_list)

/-- The node type `parse` finally returns. -/
def parseNT (input : List Char) : Option (Except ParseError NodeType) :=
  (parse input).map (Except.map Node.node_type)

/-- The node type at the root after the driver loop, together with the
loop's convergence flag (`true` = the loop broke on `!updated` before the
200-iteration cap, `false` = the cap was exhausted while still updating). -/
def final_root_and_converged (input : List Char) :
    Option (Except ParseError (NodeType × Bool)) :=
  match tokenize input with
  | none => none
  | some (.error e) => some (.error e)
  | some (.ok token_list) =>
    some ((run_tokens token_list).map fun p => (getNT p.1 p.1.node_factory.root_id, p.2))

/-- The non-negative integer denoted by a most-significant-digit-first
base-94 digit string (spec §3, §4.1); the mathematical yardstick against
which the codec is judged. -/
def msbVal (L : List Nat) : Nat := L.foldl (fun ret d => ret * 94 + d) 0

/-- A parser state is well formed when the arena holds no entry at or
beyond the node-id counter — true of every state the source can build,
since nodes are only ever pushed at the counter. -/
def WF (st : ParserState) : Prop :=
  ∀ i, st.node_factory.node_id ≤ i → st.node_factory.node_buffer.get i = none

/-- The §8 "ground truth" conditional vector. -/
def ifVectorInput : List Char := ("? B> I# I$ S9%3 S./").toList

/-- The §8 rule-10 fixed-point input (digits: `\x22` = 1, `#` = 2, `$` = 3,
`!` = 0, `%` = 4). -/
def fibInput : List Char :=
  ("B$ B$ L\" B$ L# B$ v\" B$ v# v# L# B$ v\" B$ v# v# L\" L# ? B= v# I! I\" B$ L$ B+ B$ v\" v$ B$ v\" v$ B- v# I\" I%").toList

/-- `(fun x => x x) (fun x => x x)` — a diverging term that keeps reducing
forever. -/
def omegaInput : List Char := ("B$ L! B$ v! v! L! B$ v! v!").toList

/-- An `If` whose predicate is the integer 0 (not a boolean). -/
def ifStuckInput : List Char := ("? I! I\" I#").toList

/-- An `If` whose predicate `B+ I! I!` must first be reduced — to the
integer 0, not a boolean. -/
def ifComputedInput : List Char := ("? B+ I! I! I\" I#").toList

/-- `Take 4` of the two-character string `#a` (alphabet indices 2, 64). -/
def takeLongInput : List Char := ("BT I% S#a").toList

/-- `0 * Ω`: multiplication whose left operand is the literal 0 and whose
right operand diverges. -/
def mulOmegaInput : List Char := ("B* I! B$ L! B$ v! v! L! B$ v! v!").toList

/-- `0 * (true + false)`: multiplication whose right operand is ill-typed
and can never reduce to a value. -/
def mulStuckInput : List Char := ("B* I! B+ T F").toList

/-- A two-node state — `0 ↦ Variable 2`, `1 ↦ Lambda 2 0` (the term
`λv2. v2` after parsing, before alpha conversion would bump the counters)
with the fresh-variable counter at its initial 128. -/
def c2state : ParserState :=
  ⟨{ node_id := 2, var_id := 128,
     node_buffer := (NodeMap.leaf.set 0 ⟨0, .Variable 2⟩).set 1 ⟨1, .Lambda 2 0⟩,
     root_id := 1 }⟩

/-- A three-node state whose root is `Mul (Integer 0) (Apply _ _)` — the
second operand is an application (not a value), with dangling children:
the zero short-circuit never looks at them. -/
def mulWitnessState : ParserState :=
  ⟨{ node_id := 3, var_id := 128,
     node_buffer :=
       ((NodeMap.leaf.set 0 ⟨0, .Integer 0⟩).set 1
           ⟨1, .Binary .Apply 5 6⟩).set 2 ⟨2, .Binary .Mul 0 1⟩,
     root_id := 2 }⟩

/-!  ## Theorems  -/

/-- `parse` returns exactly the first component of
`final_root_and_converged` (the root's node type), under the same error
and panic behaviour. -/
theorem parseNT_eq_final (input : List Char) :
    parseNT input = (final_root_and_converged input).map (Except.map Prod.fst) := by
  unfold parseNT parse final_root_and_converged parse_tokens
  cases tokenize input with
  | none => rfl
  | some r =>
    cases r with
    | error e => rfl
    | ok toks =>
      cases hr : run_tokens toks with
      | error e => simp [hr, Except.map]
      | ok p => simp [hr, Except.map, getNT]

/-- Claim C3: the wire token `B<` is lexed to `IntegerLarger`, which
reduces two integer operands `a`, `b` to `Boolean (a < b)`; `B>` is lexed
to `IntegerSmaller`, which reduces to `Boolean (a > b)`; and the §8
ground-truth vector `? B> I# I$ S9%3 S./` evaluates to the string decoded
from `./` (alphabet indices 13, 14), taking the false branch since
`2 > 3` is false. -/
theorem claim_C3 :
    (∀ a b : Int, parse_tokens [.Binary .IntegerLarger, .Integer a, .Integer b]
        = .ok ⟨2, .Boolean (decide (a < b))⟩) ∧
    (∀ a b : Int, parse_tokens [.Binary .IntegerSmaller, .Integer a, .Integer b]
        = .ok ⟨2, .Boolean (decide (b < a))⟩) ∧
    tokenize ("B<").toList = some (.ok [.Binary .IntegerLarger]) ∧
    tokenize ("B>").toList = some (.ok [.Binary .IntegerSmaller]) ∧
    parseNT ifVectorInput = some (.ok (.String ⟨[13, 14]⟩)) :=
  ⟨fun _ _ => by with_unfolding_all rfl,
   fun _ _ => by with_unfolding_all rfl,
   by with_unfolding_all rfl,
   by with_unfolding_all rfl,
   by with_unfolding_all rfl⟩

set_option maxRecDepth 100000 in
/-- Claim C5 (code bug): the lexer funnels every integer literal through
the 64-bit `ICFPString::to_i64`.  The ten-character body `~~~~~~~~~~`
denotes `94^10 − 1 = 53861511409489970175` (each `~` is digit 93), but the
token carries the wrapped value `-1478720811638684673`, so integer
literals are not arbitrary precision.  The empty body does decode to 0. -/
theorem claim_C5_bug :
    tokenize ("I~~~~~~~~~~").toList = some (.ok [.Integer (-1478720811638684673)]) ∧
    ICFPString.from_str ("~~~~~~~~~~").toList = .ok ⟨List.replicate 10 93⟩ ∧
    ICFPString.to_int ⟨List.replicate 10 93⟩ = 53861511409489970175 ∧
    (-1478720811638684673 : Int) ≠ (53861511409489970175 : Int) ∧
    ICFPString.to_i64 ⟨[]⟩ = 0 :=
  ⟨by with_unfolding_all rfl, by with_unfolding_all rfl,
   by with_unfolding_all rfl, by decide, by with_unfolding_all rfl⟩

/-- Claim C6 (counterexample): parsing `? I! I" I#` — an `If` whose
predicate reduces to the integer 0 — does NOT fail; `parse` returns a
success value holding the unreduced `If` node.  The same happens when the
predicate must first be computed: in `? B+ I! I! I" I#` the sum node 2
reduces in place to `Integer 0` and the `If` then stays stuck. -/
theorem claim_C6_counterexample :
    parseNT ifStuckInput = some (.ok (.If 0 1 2)) ∧
    (∀ e : ParseError, parseNT ifStuckInput ≠ some (.error e)) ∧
    parseNT ifComputedInput = some (.ok (.If 2 3 4)) := by
  have h1 : parseNT ifStuckInput = some (.ok (.If 0 1 2)) := by with_unfolding_all rfl
  exact ⟨h1, fun e h => by rw [h1] at h; simp at h, by with_unfolding_all rfl⟩

/-- Claim C6 (amended): when the predicate of an `If` node is a non-Bool
value, evaluation merely gets stuck: the driver makes no further update
and `parse` returns `Ok` with the `If` node unreduced — no
`IfPredicateNotBool` error exists in the code. -/
theorem claim_C6 :
    (∀ a b c : Int, parse_tokens [.If, .Integer a, .Integer b, .Integer c]
        = .ok ⟨3, .If 0 1 2⟩) ∧
    (∀ (s : ICFPString) (b c : Int), parse_tokens [.If, .String s, .Integer b, .Integer c]
        = .ok ⟨3, .If 0 1 2⟩) ∧
    parseNT ifStuckInput = some (.ok (.If 0 1 2)) :=
  ⟨fun _ _ _ => by with_unfolding_all rfl,
   fun _ _ _ => by with_unfolding_all rfl,
   by with_unfolding_all rfl⟩

/-- Claim C8 (counterexample): `BT I% S#a` — `Take 4` of the two-character
string `#a` — does NOT fail although `4 > 2`; `parse` returns the whole
string (alphabet indices 2, 64). -/
theorem claim_C8_counterexample :
    parseNT takeLongInput = some (.ok (.String ⟨[2, 64]⟩)) ∧
    ∀ e : ParseError, parseNT takeLongInput ≠ some (.error e) := by
  have h1 : parseNT takeLongInput = some (.ok (.String ⟨[2, 64]⟩)) := by
    with_unfolding_all rfl
  exact ⟨h1, fun e h => by rw [h1] at h; simp at h⟩

/-- Claim C8 (amended): for every `n ≥ 0`, `Take n s` evaluates to the
first `min n (length s)` alphabet characters of `s` — in particular the
first `n` characters when `n ≤ length s`, and all of `s` (with no error)
when `n > length s`. -/
theorem claim_C8 :
    ∀ (n : Nat) (ds : List Nat),
      parse_tokens [.Binary .TakeStr, .Integer (n : Int), .String ⟨ds⟩]
        = .ok ⟨2, .String ⟨ds.take n⟩⟩ :=
  fun _ _ => by with_unfolding_all rfl

/-- Claim C9: the lexer is not total — a lexeme consisting of the single
character `U` or `B` drives the unchecked index `chars[1]` out of bounds,
so `tokenize` panics (modelled as `none`) instead of returning
`Err(InvalidToken)`; the panic also fires mid-stream, while an unknown
indicator such as `X` is a proper `InvalidToken` error. -/
theorem claim_C9 :
    tokenize ("U").toList = none ∧
    tokenize ("B").toList = none ∧
    tokenize ("T U T").toList = none ∧
    tokenize ("X").toList = some (.error .InvalidToken) :=
  ⟨by with_unfolding_all rfl, by with_unfolding_all rfl,
   by with_unfolding_all rfl, by with_unfolding_all rfl⟩

/-- Claim C10: multiplication short-circuits on a zero operand.  If the
node is `Mul c1 c2` and either side is the literal `Integer 0`, one
`evaluate_once` step rewrites the node to `Integer 0` no matter what the
other operand is (any non-`Lazy` node type, values and non-values alike);
consequently `B* I! E` parses to `Int 0` even for a diverging `E` (the
self-application Ω) or an ill-typed `E` (`B+ T F`). -/
theorem claim_C10 :
    (∀ (f : Nat) (st : ParserState) (node_id c1 c2 : Nat) (t : NodeType)
        (upd : Bool) (vis : List Nat),
      getNT st node_id = .Binary .Mul c1 c2 →
      getNT st c1 = .Integer 0 →
      getNT st c2 = t →
      (∀ k, t ≠ .Lazy k) →
      vis.contains node_id = false →
      evaluate_once (f + 1) st node_id upd vis
        = (setNT st node_id (.Integer 0), true, node_id :: vis)) ∧
    (∀ (f : Nat) (st : ParserState) (node_id c1 c2 : Nat) (t : NodeType)
        (upd : Bool) (vis : List Nat),
      getNT st node_id = .Binary .Mul c1 c2 →
      getNT st c1 = t →
      getNT st c2 = .Integer 0 →
      (∀ k, t ≠ .Lazy k) →
      (∀ i, t ≠ .Integer i) →
      vis.contains node_id = false →
      evaluate_once (f + 1) st node_id upd vis
        = (setNT st node_id (.Integer 0), true, node_id :: vis)) ∧
    parseNT mulOmegaInput = some (.ok (.Integer 0)) ∧
    parseNT mulStuckInput = some (.ok (.Integer 0)) := by
  refine ⟨?_, ?_, by with_unfolding_all rfl, by with_unfolding_all rfl⟩
  · intro f st node_id c1 c2 t upd vis h1 h2 h3 hlz hvis
    have hv : node_id ∉ vis := by simpa using hvis
    cases t with
    | Lazy k => exact absurd rfl (hlz k)
    | Integer i => simp [evaluate_once, extract_node, h1, h2, h3, hv]
    | Boolean b => simp [evaluate_once, extract_node, h1, h2, h3, hv]
    | String s => simp [evaluate_once, extract_node, h1, h2, h3, hv]
    | Unary o c => simp [evaluate_once, extract_node, h1, h2, h3, hv]
    | Binary o a b => simp [evaluate_once, extract_node, h1, h2, h3, hv]
    | If p fi se => simp [evaluate_once, extract_node, h1, h2, h3, hv]
    | Lambda v c => simp [evaluate_once, extract_node, h1, h2, h3, hv]
    | Variable v => simp [evaluate_once, extract_node, h1, h2, h3, hv]
  · intro f st node_id c1 c2 t upd vis h1 h2 h3 hlz hint hvis
    have hv : node_id ∉ vis := by simpa using hvis
    cases t with
    | Lazy k => exact absurd rfl (hlz k)
    | Integer i => exact absurd rfl (hint i)
    | Boolean b => simp [evaluate_once, extract_node, h1, h2, h3, hv]
    | String s => simp [evaluate_once, extract_node, h1, h2, h3, hv]
    | Unary o c => simp [evaluate_once, extract_node, h1, h2, h3, hv]
    | Binary o a b => simp [evaluate_once, extract_node, h1, h2, h3, hv]
    | If p fi se => simp [evaluate_once, extract_node, h1, h2, h3, hv]
    | Lambda v c => simp [evaluate_once, extract_node, h1, h2, h3, hv]
    | Variable v => simp [evaluate_once, extract_node, h1, h2, h3, hv]

set_option maxRecDepth 1000000 in
/-- Claim C1: evaluating the §8 rule-10 fixed-point input terminates
inside the reducer's iteration budget — the driver loop converges before
its 200-round cap (flag `true`) — and `parse` returns the value
`Int 16`. -/
theorem claim_C1 :
    final_root_and_converged fibInput = some (.ok (.Integer 16, true)) ∧
    parseNT fibInput = some (.ok (.Integer 16)) := by
  have h : final_root_and_converged fibInput = some (.ok (.Integer 16, true)) := by
    with_unfolding_all rfl
  refine ⟨h, ?_⟩
  rw [parseNT_eq_final, h]
  rfl

set_option maxRecDepth 1000000 in
/-- Claim C7 (counterexample): on the diverging input Ω the driver
exhausts its cap — which is 200 iterations, not on the order of ten
million — with the root still an unreduced application, and `parse` does
NOT fail with any error: it returns the current root as a success
value. -/
theorem claim_C7_counterexample :
    final_root_and_converged omegaInput = some (.ok (.Binary .Apply 606 607, false)) ∧
    parseNT omegaInput = some (.ok (.Binary .Apply 606 607)) := by
  have h : final_root_and_converged omegaInput
      = some (.ok (.Binary .Apply 606 607, false)) := by
    with_unfolding_all rfl
  refine ⟨h, ?_⟩
  rw [parseNT_eq_final, h]
  rfl

/-- Claim C7 (amended): the reducer cannot fail at all — once tree
construction succeeds, `parse` returns `Ok` (with whatever the root then
holds), whether or not the 200-iteration cap was reached; no
`BudgetExceeded` error exists. -/
theorem claim_C7 :
    ∀ (toks : List TokenType) (x : Nat × ParserState × List TokenType),
      construct_node (toks.length + 1) ParserState.new toks = .ok x →
      ∃ n, parse_tokens toks = .ok n := by
  intro toks x hc
  obtain ⟨root, st, rest⟩ := x
  unfold parse_tokens run_tokens
  simp only [hc, bind, Except.bind]
  exact ⟨_, rfl⟩

/-- Witness for C7: on the single-token input `T` construction succeeds
and `parse` returns `Ok`. -/
theorem claim_C7_witness :
    construct_node 2 ParserState.new [TokenType.Boolean true]
      = .ok (0, ⟨{ node_id := 1, var_id := 128,
                   node_buffer := NodeMap.leaf.set 0 ⟨0, .Boolean true⟩,
                   root_id := 0 }⟩, []) ∧
    ∃ n, parse_tokens [TokenType.Boolean true] = .ok n :=
  ⟨by with_unfolding_all rfl,
   claim_C7 [TokenType.Boolean true] _ (by with_unfolding_all rfl)⟩

/-- Witness for C10: the zero short-circuit fires on a concrete state
whose second operand is an application. -/
theorem claim_C10_witness :
    getNT mulWitnessState 2 = .Binary .Mul 0 1 ∧
    getNT mulWitnessState 0 = .Integer 0 ∧
    getNT mulWitnessState 1 = .Binary .Apply 5 6 ∧
    evaluate_once 1 mulWitnessState 2 false []
      = (setNT mulWitnessState 2 (.Integer 0), true, [2]) :=
  ⟨rfl, rfl, rfl,
   claim_C10.1 0 mulWitnessState 2 0 1 (.Binary .Apply 5 6) false [] rfl rfl rfl
     (fun _ h => nomatch h) rfl⟩

end Icfp2024

namespace Icfp2024


theorem NodeMap.get_setG_self : ∀ (f : Nat) (m : NodeMap) (n : Nat) (x : Node), n < f →
    (NodeMap.setG f m n x).get n = some x := by
  intro f
  induction f with
  | zero => intro m n x h; omega
  | succ f ih =>
    intro m n x h
    rcases m with _ | ⟨v, e, o⟩ <;> rcases n with _ | k
    · rfl
    · rcases Nat.mod_two_eq_zero_or_one k with hp | hp <;>
        simp [NodeMap.setG, NodeMap.get, hp] <;> exact ih _ _ _ (by omega)
    · rfl
    · rcases Nat.mod_two_eq_zero_or_one k with hp | hp <;>
        simp [NodeMap.setG, NodeMap.get, hp] <;> exact ih _ _ _ (by omega)

theorem NodeMap.get_setG_ne : ∀ (f : Nat) (m : NodeMap) (n i : Nat) (x : Node), i ≠ n →
    (NodeMap.setG f m n x).get i = m.get i := by
  intro f
  induction f with
  | zero => intro m n i x h; rfl
  | succ f ih =>
    intro m n i x h
    rcases m with _ | ⟨v, e, o⟩ <;> rcases n with _ | k <;> rcases i with _ | j
    · omega
    · rcases Nat.mod_two_eq_zero_or_one j with hp | hp <;>
        simp [NodeMap.setG, NodeMap.get, hp]
    · rcases Nat.mod_two_eq_zero_or_one k with hp | hp <;>
        simp [NodeMap.setG, NodeMap.get, hp]
    · rcases Nat.mod_two_eq_zero_or_one k with hpk | hpk <;>
        rcases Nat.mod_two_eq_zero_or_one j with hpj | hpj <;>
        simp [NodeMap.setG, NodeMap.get, hpk, hpj] <;>
        rw [ih] <;> simp [NodeMap.get] <;> omega
    · omega
    · rcases Nat.mod_two_eq_zero_or_one j with hp | hp <;>
        simp [NodeMap.setG, NodeMap.get, hp]
    · rcases Nat.mod_two_eq_zero_or_one k with hp | hp <;>
        simp [NodeMap.setG, NodeMap.get, hp]
    · rcases Nat.mod_two_eq_zero_or_one k with hpk | hpk <;>
        rcases Nat.mod_two_eq_zero_or_one j with hpj | hpj <;>
        simp [NodeMap.setG, NodeMap.get, hpk, hpj] <;>
        exact ih _ _ _ _ (by omega)

theorem NodeMap.get_set_self (m : NodeMap) (n : Nat) (x : Node) :
    (m.set n x).get n = some x :=
  NodeMap.get_setG_self (n + 1) m n x (by omega)

theorem NodeMap.get_set_ne (m : NodeMap) (n i : Nat) (x : Node) (h : i ≠ n) :
    (m.set n x).get i = m.get i :=
  NodeMap.get_setG_ne (n + 1) m n i x h



theorem addNode_spec (st : ParserState) (t : NodeType) (hwf : WF st) :
    WF (st.addNode t).1 ∧
    st.node_factory.node_id ≤ (st.addNode t).1.node_factory.node_id ∧
    ∀ i, i < st.node_factory.node_id → getNode (st.addNode t).1 i = getNode st i := by
  refine ⟨?_, ?_, ?_⟩
  · intro i hi
    simp only [ParserState.addNode] at hi ⊢
    rw [NodeMap.get_set_ne _ _ _ _ (by omega)]
    exact hwf i (by omega)
  · simp [ParserState.addNode]
  · intro i hi
    simp only [getNode, ParserState.addNode]
    rw [NodeMap.get_set_ne _ _ _ _ (by omega)]

theorem getNT_addNode_self (st : ParserState) (t : NodeType) :
    getNT (st.addNode t).1 (st.addNode t).2 = t := by
  simp [getNT, getNode, ParserState.addNode, NodeMap.get_set_self]

theorem WF.lt_counter {st : ParserState} (hwf : WF st) {i : Nat}
    (h : getNT st i ≠ .Boolean true) : i < st.node_factory.node_id := by
  by_contra hc
  push_neg at hc
  exact h (by simp [getNT, getNode, hwf i hc])

theorem replace_var_id_shadow (f : Nat) (node_id v tov : Nat) (st : ParserState)
    (vis : List Nat) (c : Nat) (h : getNT st node_id = .Lambda v c) :
    replace_var_id f node_id v tov st vis = (st, vis) := by
  cases f with
  | zero => rfl
  | succ f => simp [replace_var_id, h]



theorem shallow_clone_spec : ∀ (f : Nat) (st : ParserState) (h : Nat), WF st →
    WF (shallow_clone f st h).1 ∧
    st.node_factory.node_id ≤ (shallow_clone f st h).1.node_factory.node_id ∧
    ∀ i, i < st.node_factory.node_id → getNode (shallow_clone f st h).1 i = getNode st i := by
  intro f
  induction f with
  | zero => intro st h hwf; exact ⟨hwf, le_refl _, fun i _ => rfl⟩
  | succ f ih =>
    intro st h hwf
    rw [show f + 1 = Nat.succ f from rfl]
    rcases hnt : getNT st h with ⟨b⟩ | ⟨i⟩ | ⟨s⟩ | ⟨o, c⟩ | ⟨o, c1, c2⟩ | ⟨p, fi, se⟩ | ⟨v, c⟩ | ⟨v⟩ | ⟨lz⟩
    · simpa only [shallow_clone.eq_2, hnt] using addNode_spec st (.Boolean b) hwf
    · simpa only [shallow_clone.eq_2, hnt] using addNode_spec st (.Integer i) hwf
    · simpa only [shallow_clone.eq_2, hnt] using addNode_spec st (.String s) hwf
    · -- Unary
      obtain ⟨hw1, hm1, hp1⟩ := ih st c hwf
      rcases hC : shallow_clone f st c with ⟨st1, c1⟩
      rw [hC] at hw1 hm1 hp1
      obtain ⟨hw2, hm2, hp2⟩ := addNode_spec st1 (.Unary o c1) hw1
      simp only [shallow_clone.eq_2, hnt, hC]
      exact ⟨hw2, le_trans hm1 hm2,
        fun i hi => (hp2 i (lt_of_lt_of_le hi hm1)).trans (hp1 i hi)⟩
    · -- Binary
      obtain ⟨hw1, hm1, hp1⟩ := ih st c1 hwf
      rcases hC1 : shallow_clone f st c1 with ⟨st1, d1⟩
      rw [hC1] at hw1 hm1 hp1
      obtain ⟨hw2, hm2, hp2⟩ := ih st1 c2 hw1
      rcases hC2 : shallow_clone f st1 c2 with ⟨st2, d2⟩
      rw [hC2] at hw2 hm2 hp2
      obtain ⟨hw3, hm3, hp3⟩ := addNode_spec st2 (.Binary o d1 d2) hw2
      simp only [shallow_clone.eq_2, hnt, hC1, hC2]
      refine ⟨hw3, le_trans hm1 (le_trans hm2 hm3), fun i hi => ?_⟩
      rw [hp3 i (lt_of_lt_of_le hi (le_trans hm1 hm2)),
        hp2 i (lt_of_lt_of_le hi hm1), hp1 i hi]
    · -- If
      obtain ⟨hw1, hm1, hp1⟩ := ih st p hwf
      rcases hC1 : shallow_clone f st p with ⟨st1, d1⟩
      rw [hC1] at hw1 hm1 hp1
      obtain ⟨hw2, hm2, hp2⟩ := ih st1 fi hw1
      rcases hC2 : shallow_clone f st1 fi with ⟨st2, d2⟩
      rw [hC2] at hw2 hm2 hp2
      obtain ⟨hw3, hm3, hp3⟩ := ih st2 se hw2
      rcases hC3 : shallow_clone f st2 se with ⟨st3, d3⟩
      rw [hC3] at hw3 hm3 hp3
      obtain ⟨hw4, hm4, hp4⟩ := addNode_spec st3 (.If d1 d2 d3) hw3
      simp only [shallow_clone.eq_2, hnt, hC1, hC2, hC3]
      refine ⟨hw4, le_trans hm1 (le_trans hm2 (le_trans hm3 hm4)), fun i hi => ?_⟩
      rw [hp4 i (lt_of_lt_of_le hi (le_trans hm1 (le_trans hm2 hm3))),
        hp3 i (lt_of_lt_of_le hi (le_trans hm1 hm2)),
        hp2 i (lt_of_lt_of_le hi hm1), hp1 i hi]
    · -- Lambda
      rcases hV : st.get_var_id with ⟨st1, nv⟩
      have hwf1 : WF st1 := by
        have hx : WF (st.get_var_id).1 := hwf
        rwa [hV] at hx
      have hcount1 : st.node_factory.node_id = st1.node_factory.node_id :=
        congrArg (fun p => p.1.node_factory.node_id) hV
      have hbuf1 : ∀ i, getNode st1 i = getNode st i :=
        fun i => (congrArg (fun p => getNode p.1 i) hV).symm
      obtain ⟨hw2, hm2, hp2⟩ := ih st1 c hwf1
      rcases hC : shallow_clone f st1 c with ⟨st2, c2⟩
      rw [hC] at hw2 hm2 hp2
      have hw2x : WF st2 := hw2
      have hm2x : st1.node_factory.node_id ≤ st2.node_factory.node_id := hm2
      have hp2x : ∀ i, i < st1.node_factory.node_id → getNode st2 i = getNode st1 i := hp2
      obtain ⟨hw3, hm3, hp3⟩ := addNode_spec st2 (.Lambda v c2) hw2x
      rcases hA : st2.addNode (.Lambda v c2) with ⟨st3, nid3⟩
      rw [hA] at hw3 hm3 hp3
      have hw3x : WF st3 := hw3
      have hm3x : st2.node_factory.node_id ≤ st3.node_factory.node_id := hm3
      have hp3x : ∀ i, i < st2.node_factory.node_id → getNode st3 i = getNode st2 i := hp3
      have hlt : h < st.node_factory.node_id :=
        hwf.lt_counter (by rw [hnt]; exact fun hcon => nomatch hcon)
      have hg3 : getNT st3 h = .Lambda v c := by
        have e1 : getNode st3 h = getNode st2 h := hp3x h (by omega)
        have e2 : getNode st2 h = getNode st1 h := hp2x h (by omega)
        unfold getNT
        rw [e1, e2, hbuf1 h]
        exact hnt
      have hsh := replace_var_id_shadow f h v nv st3 [] c hg3
      simp only [shallow_clone.eq_2, hnt, hV, hC, hA, hsh]
      refine ⟨hw3x, by omega, fun i hi => ?_⟩
      rw [hp3x i (by omega), hp2x i (by omega), hbuf1 i]
    · simpa only [shallow_clone.eq_2, hnt] using addNode_spec st (.Variable v) hwf
    · rw [shallow_clone.eq_2, hnt]
      exact ⟨hwf, le_refl _, fun i _ => rfl⟩



theorem shallow_clone_lazy (f : Nat) (st : ParserState) (h k : Nat)
    (hnt : getNT st h = .Lazy k) : shallow_clone f st h = (st, h) := by
  cases f with
  | zero => rfl
  | succ f => rw [shallow_clone.eq_2, hnt]

theorem shallow_clone_lambda (f : Nat) (st : ParserState) (h v c : Nat)
    (hwf : WF st) (hnt : getNT st h = .Lambda v c) :
    ∃ c2, getNT (shallow_clone (f + 1) st h).1 (shallow_clone (f + 1) st h).2 = .Lambda v c2 ∧
      st.node_factory.node_id ≤ (shallow_clone (f + 1) st h).2 := by
  rw [show f + 1 = Nat.succ f from rfl]
  rcases hV : st.get_var_id with ⟨st1, nv⟩
  have hwf1 : WF st1 := by
    have hx : WF (st.get_var_id).1 := hwf
    rwa [hV] at hx
  have hcount1 : st.node_factory.node_id = st1.node_factory.node_id :=
    congrArg (fun p => p.1.node_factory.node_id) hV
  have hbuf1 : ∀ i, getNode st1 i = getNode st i :=
    fun i => (congrArg (fun p => getNode p.1 i) hV).symm
  obtain ⟨hw2, hm2, hp2⟩ := shallow_clone_spec f st1 c hwf1
  rcases hC : shallow_clone f st1 c with ⟨st2, c2⟩
  rw [hC] at hw2 hm2 hp2
  have hw2x : WF st2 := hw2
  have hm2x : st1.node_factory.node_id ≤ st2.node_factory.node_id := hm2
  have hp2x : ∀ i, i < st1.node_factory.node_id → getNode st2 i = getNode st1 i := hp2
  obtain ⟨hw3, hm3, hp3⟩ := addNode_spec st2 (.Lambda v c2) hw2x
  have hsame := getNT_addNode_self st2 (.Lambda v c2)
  have hid : st2.node_factory.node_id = (st2.addNode (.Lambda v c2)).2 := rfl
  rcases hA : st2.addNode (.Lambda v c2) with ⟨st3, nid3⟩
  rw [hA] at hw3 hm3 hp3 hsame hid
  have hp3x : ∀ i, i < st2.node_factory.node_id → getNode st3 i = getNode st2 i := hp3
  have hlt : h < st.node_factory.node_id :=
    hwf.lt_counter (by rw [hnt]; exact fun hcon => nomatch hcon)
  have hg3 : getNT st3 h = .Lambda v c := by
    have e1 : getNode st3 h = getNode st2 h := hp3x h (by omega)
    have e2 : getNode st2 h = getNode st1 h := hp2x h (by omega)
    unfold getNT
    rw [e1, e2, hbuf1 h]
    exact hnt
  have hsh := replace_var_id_shadow f h v nv st3 [] c hg3
  have hEq : shallow_clone (Nat.succ f) st h = (st3, nid3) := by
    simp only [shallow_clone.eq_2, hnt, hV, hC, hA, hsh]
  rw [hEq]
  exact ⟨c2, hsame, by omega⟩

/-- Claim C2 (amended): `shallow_clone` is a structural copy that leaves
every existing node of a well-formed state untouched, returns the SAME
handle for a `Lazy` node (thunks are shared, not cloned), and copies a
`Lambda` to a fresh node that KEEPS the original bound identifier: the
fresh identifier drawn in the lambda arm is passed to a `replace_var_id`
call running on the original lambda node, where the binder shadows it, so
no variable is ever rewritten to the fresh identifier. -/
theorem claim_C2 (f : Nat) (st : ParserState) (h : Nat) (hwf : WF st) :
    (∀ i, i < st.node_factory.node_id →
      getNode (shallow_clone f st h).1 i = getNode st i) ∧
    (∀ k, getNT st h = .Lazy k → shallow_clone f st h = (st, h)) ∧
    (∀ v c, getNT st h = .Lambda v c →
      ∃ c2, getNT (shallow_clone (f + 1) st h).1 (shallow_clone (f + 1) st h).2
          = .Lambda v c2 ∧
        st.node_factory.node_id ≤ (shallow_clone (f + 1) st h).2) :=
  ⟨(shallow_clone_spec f st h hwf).2.2,
   fun k hk => shallow_clone_lazy f st h k hk,
   fun v c hvc => shallow_clone_lambda f st h v c hwf hvc⟩

theorem WF_c2state : WF c2state := by
  intro i hi
  have hi2 : 2 ≤ i := hi
  obtain ⟨j, rfl⟩ : ∃ j, i = j + 2 := ⟨i - 2, by omega⟩
  have hb : c2state.node_factory.node_buffer
      = NodeMap.branch (some ⟨0, .Variable 2⟩)
          (NodeMap.branch (some ⟨1, .Lambda 2 0⟩) .leaf .leaf) .leaf := rfl
  rw [hb]
  rcases Nat.mod_two_eq_zero_or_one (j + 1) with hp | hp
  · obtain ⟨k, hk⟩ : ∃ k, (j + 1) / 2 = k + 1 := ⟨(j + 1) / 2 - 1, by omega⟩
    simp only [NodeMap.get, hp, if_pos]
    rw [hk]
    rcases Nat.mod_two_eq_zero_or_one k with h2 | h2 <;> simp [NodeMap.get, h2]
  · simp [NodeMap.get, hp]

/-- Claim C2 (counterexample): cloning the lambda node `1 ↦ Lambda 2 0`
(body `0 ↦ Variable 2`) of `c2state` yields node 3 = `Lambda 2 2` with
body node 2 = `Variable 2`: the clone keeps binder 2 — it does NOT get the
fresh identifier 128, which is drawn (the counter moves to 129) but never
written anywhere; the original nodes are unchanged. -/
theorem claim_C2_counterexample :
    (shallow_clone 100 c2state 1).2 = 3 ∧
    getNT (shallow_clone 100 c2state 1).1 3 = .Lambda 2 2 ∧
    getNT (shallow_clone 100 c2state 1).1 2 = .Variable 2 ∧
    c2state.node_factory.var_id = 128 ∧
    (shallow_clone 100 c2state 1).1.node_factory.var_id = 129 ∧
    (∀ cc, getNT (shallow_clone 100 c2state 1).1 3 ≠ .Lambda 128 cc) ∧
    getNT (shallow_clone 100 c2state 1).1 2 ≠ .Variable 128 ∧
    getNT (shallow_clone 100 c2state 1).1 1 = .Lambda 2 0 ∧
    getNT (shallow_clone 100 c2state 1).1 0 = .Variable 2 := by
  refine ⟨by with_unfolding_all rfl, by with_unfolding_all rfl, by with_unfolding_all rfl,
    rfl, by with_unfolding_all rfl, ?_, ?_, by with_unfolding_all rfl,
    by with_unfolding_all rfl⟩
  · have hg : getNT (shallow_clone 100 c2state 1).1 3 = .Lambda 2 2 := by
      with_unfolding_all rfl
    intro cc hcc
    rw [hg] at hcc
    simp at hcc
  · have hg : getNT (shallow_clone 100 c2state 1).1 2 = .Variable 2 := by
      with_unfolding_all rfl
    intro hcc
    rw [hg] at hcc
    simp at hcc

/-- Witness for C2: the amended theorem applied to `c2state` and its
lambda node. -/
theorem claim_C2_witness :
    WF c2state ∧
    (∀ i, i < c2state.node_factory.node_id →
      getNode (shallow_clone 10 c2state 1).1 i = getNode c2state i) ∧
    (∀ v c, getNT c2state 1 = .Lambda v c →
      ∃ c2, getNT (shallow_clone 11 c2state 1).1 (shallow_clone 11 c2state 1).2
          = .Lambda v c2 ∧
        c2state.node_factory.node_id ≤ (shallow_clone 11 c2state 1).2) :=
  ⟨WF_c2state, (claim_C2 10 c2state 1 WF_c2state).1, (claim_C2 10 c2state 1 WF_c2state).2.2⟩


end Icfp2024

namespace Icfp2024



theorem fromI64Go_eq_digits : ∀ (f m : Nat), m ≤ f → fromI64Go f (m : Int) = Nat.digits 94 m := by
  intro f
  induction f with
  | zero =>
    intro m hm
    obtain rfl : m = 0 := by omega
    simp [fromI64Go]
  | succ f ih =>
    intro m hm
    rcases Nat.eq_zero_or_pos m with rfl | hpos
    · rw [show (f + 1 : Nat) = Nat.succ f from rfl, fromI64Go.eq_2]
      norm_num
    · rw [show (f + 1 : Nat) = Nat.succ f from rfl, fromI64Go.eq_2]
      rw [if_pos (by exact_mod_cast hpos)]
      have h1 : ((m : Int) % 94).toNat = m % 94 := by omega
      have h2 : (m : Int) / 94 = ((m / 94 : Nat) : Int) := by omega
      have h3 : m / 94 ≤ f := by omega
      rw [h1, h2, ih (m / 94) h3,
        Nat.digits_def' (by norm_num : (1:Nat) < 94) hpos]

theorem from_i64_eq_digits (n : Nat) :
    ICFPString.from_i64 (n : Int) = ⟨(Nat.digits 94 n).reverse⟩ := by
  unfold ICFPString.from_i64
  rw [show ((n : Int)).toNat = n by omega, fromI64Go_eq_digits n n (le_refl n)]

theorem msbVal_reverse (L : List Nat) : msbVal L.reverse = Nat.ofDigits 94 L := by
  induction L with
  | nil => rfl
  | cons d L ih =>
    unfold msbVal at ih ⊢
    rw [List.reverse_cons, List.foldl_concat, ih, Nat.ofDigits_cons]
    ring

theorem to_int_eq_msbVal (L : List Nat) : ICFPString.to_int ⟨L⟩ = (msbVal L : Int) := by
  unfold ICFPString.to_int msbVal
  suffices hs : ∀ (acc : Nat),
      List.foldl (fun (ret : Int) (d : Nat) => ret * 94 + (d : Int)) (acc : Int) L
        = ((List.foldl (fun ret d => ret * 94 + d) acc L : Nat) : Int) by
    simpa using hs 0
  induction L with
  | nil => intro acc; rfl
  | cons d L ih =>
    intro acc
    simp only [List.foldl_cons]
    rw [show (acc : Int) * 94 + (d : Int) = ((acc * 94 + d : Nat) : Int) by push_cast; ring]
    exact ih (acc * 94 + d)

theorem intFold_le (L : List Nat) : ∀ r : Int, 0 ≤ r →
    r ≤ List.foldl (fun (ret : Int) (d : Nat) => ret * 94 + (d : Int)) r L := by
  induction L with
  | nil => intro r _; exact le_refl _
  | cons d L ih =>
    intro r hr
    simp only [List.foldl_cons]
    have hd : (0 : Int) ≤ (d : Int) := Int.ofNat_nonneg d
    have h1 : r ≤ r * 94 + (d : Int) := by nlinarith
    exact le_trans h1 (ih _ (by nlinarith))

theorem w64_eq_of_bounds (x : Int) (h0 : 0 ≤ x) (h1 : x < 9223372036854775808) :
    w64 x = x := by
  unfold w64
  rw [Int.emod_eq_of_lt (by omega) (by omega)]
  omega

theorem wrapFold_eq_intFold (L : List Nat) : ∀ r : Int, 0 ≤ r →
    List.foldl (fun (ret : Int) (d : Nat) => ret * 94 + (d : Int)) r L < 9223372036854775808 →
    List.foldl (fun (ret : Int) (d : Nat) => w64 (w64 (ret * 94) + (d : Int))) r L
      = List.foldl (fun (ret : Int) (d : Nat) => ret * 94 + (d : Int)) r L := by
  induction L with
  | nil => intro r _ _; rfl
  | cons d L ih =>
    intro r hr hb
    simp only [List.foldl_cons] at hb ⊢
    have hd : (0 : Int) ≤ (d : Int) := Int.ofNat_nonneg d
    have hr94 : 0 ≤ r * 94 := by nlinarith
    have hstep : 0 ≤ r * 94 + (d : Int) := by nlinarith
    have hle : r * 94 + (d : Int)
        ≤ List.foldl (fun (ret : Int) (d : Nat) => ret * 94 + (d : Int)) (r * 94 + (d : Int)) L :=
      intFold_le L _ hstep
    have hb1 : r * 94 + (d : Int) < 9223372036854775808 := lt_of_le_of_lt hle hb
    rw [w64_eq_of_bounds (r * 94) hr94 (by omega), w64_eq_of_bounds _ hstep hb1]
    exact ih _ hstep hb



/-- Claim C4: the integer codec round-trips — for every non-negative `n`
in the `i64` range, `to_i64 (from_i64 n) = n`; `from_i64 0` is the empty
body; and for `n > 0` the encoding is the shortest MSB-first base-94 digit
string: its leading digit is non-zero and no digit string (over digits
`< 94`) denoting `n` is shorter. -/
theorem claim_C4 (n : Nat) (hn : (n : Int) < 2 ^ 63) :
    (ICFPString.from_i64 (n : Int)).to_i64 = (n : Int) ∧
    ICFPString.from_i64 0 = ⟨[]⟩ ∧
    (∀ hd tl, (ICFPString.from_i64 (n : Int)).s = hd :: tl → hd ≠ 0) ∧
    (∀ L : List Nat, (∀ d ∈ L, d < 94) → msbVal L = n →
      (ICFPString.from_i64 (n : Int)).s.length ≤ L.length) := by
  have hs : (ICFPString.from_i64 (n : Int)).s = (Nat.digits 94 n).reverse := by
    rw [from_i64_eq_digits]
  have hpure : ICFPString.to_int ⟨(Nat.digits 94 n).reverse⟩ = (n : Int) := by
    rw [to_int_eq_msbVal, msbVal_reverse, Nat.ofDigits_digits]
  have hn8 : (n : Int) < 9223372036854775808 := by
    have h63 : (2 : Int) ^ 63 = 9223372036854775808 := by norm_num
    omega
  refine ⟨?_, rfl, ?_, ?_⟩
  · -- round trip
    unfold ICFPString.to_i64
    rw [hs]
    have hb : List.foldl (fun (ret : Int) (d : Nat) => ret * 94 + (d : Int)) 0
        ((Nat.digits 94 n).reverse) < 9223372036854775808 := by
      have : ICFPString.to_int ⟨(Nat.digits 94 n).reverse⟩
          = List.foldl (fun (ret : Int) (d : Nat) => ret * 94 + (d : Int)) 0
              ((Nat.digits 94 n).reverse) := rfl
      rw [← this, hpure]
      exact hn8
    rw [wrapFold_eq_intFold _ 0 (le_refl 0) hb]
    have : ICFPString.to_int ⟨(Nat.digits 94 n).reverse⟩
        = List.foldl (fun (ret : Int) (d : Nat) => ret * 94 + (d : Int)) 0
            ((Nat.digits 94 n).reverse) := rfl
    rw [← this, hpure]
  · -- leading digit nonzero
    intro hd tl hcons
    rw [hs] at hcons
    have hne : n ≠ 0 := by
      intro h0
      subst h0
      simp at hcons
    have hgl : (Nat.digits 94 n).getLast? = some hd := by
      rw [← List.head?_reverse, hcons]
      rfl
    have hnil : Nat.digits 94 n ≠ [] := Nat.digits_ne_nil_iff_ne_zero.mpr hne
    have := Nat.getLast_digit_ne_zero 94 hne
    rw [List.getLast?_eq_getLast _ hnil] at hgl
    intro h0
    apply this
    rw [Option.some_inj.mp hgl, h0]
  · -- shortest
    intro L hdig hval
    have hlen : (ICFPString.from_i64 (n : Int)).s.length = (Nat.digits 94 n).length := by
      rw [hs, List.length_reverse]
    have hnlt : n < 94 ^ L.length := by
      have h1 : msbVal L = Nat.ofDigits 94 L.reverse := by
        have h2 := msbVal_reverse L.reverse
        rwa [List.reverse_reverse] at h2
      calc n = Nat.ofDigits 94 L.reverse := by rw [← hval, h1]
        _ < 94 ^ (L.reverse).length :=
          Nat.ofDigits_lt_base_pow_length (by norm_num)
            (fun d hd => hdig d (List.mem_reverse.mp hd))
        _ = 94 ^ L.length := by rw [List.length_reverse]
    rcases Nat.eq_zero_or_pos n with rfl | hpos
    · simp only [Nat.cast_zero] at hlen ⊢
      rw [hlen]
      simp
    · rw [hlen, Nat.digits_len 94 n (by norm_num) (by omega)]
      have hlog := (Nat.lt_pow_iff_log_lt (by norm_num : 1 < 94) (by omega : n ≠ 0)).mp hnlt
      omega

/-- Witness for C4: the codec laws at `n = 1337` (wire body `/6`). -/
theorem claim_C4_witness :
    ((1337 : Nat) : Int) < 2 ^ 63 ∧
    ((ICFPString.from_i64 ((1337 : Nat) : Int)).to_i64 = ((1337 : Nat) : Int) ∧
     ICFPString.from_i64 0 = ⟨[]⟩ ∧
     (∀ hd tl, (ICFPString.from_i64 ((1337 : Nat) : Int)).s = hd :: tl → hd ≠ 0) ∧
     (∀ L : List Nat, (∀ d ∈ L, d < 94) → msbVal L = 1337 →
       (ICFPString.from_i64 ((1337 : Nat) : Int)).s.length ≤ L.length)) :=
  ⟨by norm_num, claim_C4 1337 (by norm_num)⟩


end Icfp2024
